import Mathlib

/-!
# squishy-converter: a shallow embedding of the transcoding core

This file embeds, in Lean 4, the parts of the repository's Python source that
the claims C1-C10 speak about:

* `src/squishy/effeffmpeg/effeffmpeg.py` — option validation,
  `detect_capabilities`, `generate_ffmpeg_command`, the output-reader of
  `TranscodeProcess` (`_read_output`), and the blocking `transcode` path with a
  progress callback;
* `src/squishy/transcoder.py` — the job queue (`process_job_queue`,
  `start_transcode`, `remove_job`, `_run_job_logic`).

Conventions of the embedding:

* Python exceptions are modelled with `Except`; the exception classes that
  matter for control flow get their own constructors (`PyErr`, `PyExc`).
* Python `float` arithmetic on media timestamps is modelled with `ℚ`; every
  concrete computation the claims mention (60/120 = 0.5, min with 1.0) is
  exact in both.
* External processes (ffmpeg/ffprobe) are oracles: their observable outputs
  (probe results, output lines, exit codes) are parameters of the embedded
  functions.
* Python dictionaries with string keys are association lists in insertion
  order.
-/

namespace Squishy

/-- Python exception classes raised by the command-construction code paths. -/
inductive PyErr where
  | nameError : String → PyErr
  | valueError : String → PyErr
  | systemExit : PyErr
  | keyError : String → PyErr
deriving DecidableEq, Repr

/-- The capabilities dictionary built by `detect_capabilities`
(effeffmpeg.py lines 350-360): hwaccel, device, encoders,
fallback_encoders.  Dicts of codec names are association lists. -/
structure Capabilities where
  hwaccel : Option String
  device : String
  encoders : List (String × String)
  fallbackEncoders : List (String × String)
deriving DecidableEq, Repr

/-- `detect_capabilities` (lines 331-395).  The external probe outcomes are
parameters: whether the VAAPI device node exists, and whether the
`h264_vaapi` / `hevc_vaapi` test commands succeed.  On success of a test the
loop sets `hwaccel = "vaapi"` and stores
`encoders[encoder.replace("_vaapi", "")] = encoder`, i.e. the *key* is the
plain codec name ("h264", "hevc") and the value the hardware encoder name. -/
def detect_capabilities (deviceExists h264ok hevcok : Bool) : Capabilities :=
  let fallback : List (String × String) :=
    [("h264", "libx264"), ("hevc", "libx265"),
     ("vp9", "libvpx-vp9"), ("av1", "libaom-av1")]
  if deviceExists = false then
    ⟨none, "/dev/dri/renderD128", [], fallback⟩
  else
    ⟨if h264ok || hevcok then some ("vaapi") else none,
     "/dev/dri/renderD128",
     (if h264ok then [("h264", "h264_vaapi")] else []) ++
       (if hevcok then [("hevc", "hevc_vaapi")] else []),
     fallback⟩

/-- `parse_resolution` (lines 39-56). -/
def parse_resolution (res : String) : Nat × Nat :=
  if res = "360p" then (640, 360)
  else if res = "480p" then (854, 480)
  else if res = "720p" then (1280, 720)
  else if res = "1080p" then (1920, 1080)
  else if res = "2160p" then (3840, 2160)
  else (1280, 720)

/-- Violations collected by `validate_quality_options` (lines 58-109) when
called with `encoder=None` (as `validate_config` does).  The violation
*conditions* are translated exactly; the message texts are abbreviated to
short tags (no claim inspects the text). -/
def validate_quality_options_errors (crf : Option Int) (bitrate : Option String)
    (audioCodec : Option String) (audioBitrate : Option String)
    (flacCompression : Option Int) : List String :=
  (match crf with
   | some c =>
       (if ¬ (0 ≤ c ∧ c ≤ 51) then ["crf out of range 0-51"] else []) ++
         (if bitrate.isSome then ["both crf and bitrate"] else [])
   | none => []) ++
  (match bitrate with
   | some b => if ¬ (b.endsWith ("k") || b.endsWith ("M")) then
         ["bitrate must end with k or M"] else []
   | none => []) ++
  (match audioBitrate with
   | some ab =>
       (if audioCodec = some ("copy") then ["audio bitrate with copy codec"] else []) ++
         (if ¬ (ab.endsWith ("k") || ab.endsWith ("M")) then
            ["audio bitrate must end with k or M"] else []) ++
         (if audioCodec ∉ [some ("aac"), some ("opus"), some ("libopus")] then
            ["audio bitrate only for aac/opus/libopus"] else [])
   | none => []) ++
  (match flacCompression with
   | some f =>
       (if ¬ (0 ≤ f ∧ f ≤ 8) then ["flac compression out of range 0-8"] else []) ++
         (if audioCodec ≠ some ("flac") then ["flac compression without flac audio"] else [])
   | none => [])

/-- The container compatibility matrix of `validate_codecs` (lines 125-130):
(valid video codecs, valid audio codecs). -/
def containerMatrix (container : String) : Option (List String × List String) :=
  if container = ".mp4" then some (["h264", "hevc"], ["aac", "copy"])
  else if container = ".mkv" then
    some (["h264", "hevc", "vp9"], ["aac", "flac", "opus", "libopus", "copy"])
  else if container = ".webm" then some (["vp9", "av1"], ["opus", "libopus"])
  else if container = ".mov" then some (["h264", "hevc"], ["aac", "copy"])
  else none

/-- Violations collected by `validate_codecs` (lines 111-150). -/
def validate_codecs_errors (container videoCodec audioCodec : String) : List String :=
  match containerMatrix container with
  | none => ["unsupported container format"]
  | some (validVideo, validAudio) =>
      (if videoCodec ∉ validVideo then ["invalid video codec for container"] else []) ++
        (if audioCodec ∉ validAudio then ["invalid audio codec for container"] else [])

/-- Violations collected by `validate_config` (lines 227-308) when called, as
`generate_ffmpeg_command` does, with a config that has no `container` key and
`check_container=False`: the container field check and the codec/container
compatibility check are both skipped (container is falsy), leaving the scale
check followed by the quality-option checks. -/
def validate_config_no_container_errors (scale : Option String) (crf : Option Int)
    (bitrate : Option String) (audioCodec : Option String)
    (audioBitrate : Option String) (flacCompression : Option Int) : List String :=
  (match scale with
   | some s =>
       if s ∉ ["360p", "480p", "720p", "1080p", "2160p"] then ["invalid scale"] else []
   | none => []) ++
    validate_quality_options_errors crf bitrate audioCodec audioBitrate flacCompression

/-- Split a character list on a separator, like Python's `str.split(sep)`
(always at least one group). -/
def splitOnChar (sep : Char) : List Char → List (List Char)
  | [] => [[]]
  | c :: cs =>
      if c = sep then [] :: splitOnChar sep cs
      else
        match splitOnChar sep cs with
        | g :: gs => (c :: g) :: gs
        | [] => [[c]]

/-- The final path component (text after the last '/'). -/
def lastComponent (l : List Char) : List Char :=
  (splitOnChar '/' l).getLastD l

/-- `pathlib.Path(...).suffix` on a file *name*: the text from the last dot
(inclusive) provided that dot is neither the first nor the last character. -/
def suffixOfName (name : List Char) : List Char :=
  match splitOnChar '.' name with
  | [] => []
  | [_] => []
  | parts =>
      let lastPart := parts.getLastD []
      let i := name.length - lastPart.length - 1
      if 0 < i ∧ i < name.length - 1 then '.' :: lastPart else []

/-- `Path(output_file).suffix.lower()` (line 153). -/
def path_suffix_lower (p : String) : String :=
  String.mk ((suffixOfName (lastComponent p.data)).map Char.toLower)

/-- `infer_defaults_from_extension` (lines 152-163): returns
(extension, default video codec, default audio codec) or calls `sys.exit(1)`
for an unsupported extension. -/
def infer_defaults_from_extension (outputFile : String) :
    Except PyErr (String × String × String) :=
  let ext := path_suffix_lower outputFile
  if ext = ".mp4" then Except.ok (ext, "h264", "aac")
  else if ext = ".mkv" then Except.ok (ext, "hevc", "aac")
  else if ext = ".webm" then Except.ok (ext, "vp9", "libopus")
  else if ext = ".mov" then Except.ok (ext, "h264", "aac")
  else Except.error PyErr.systemExit

/-- The encoder-selection block of `generate_ffmpeg_command` (lines 894-909):
```
if not force_software and capabilities.get("hwaccel") == "vaapi":
    if codec and codec + "_vaapi" in capabilities.get("encoders", {}):
        video_encoder = codec + "_vaapi"
        hw_device_args = ["-init_hw_device", f"vaapi=va:{capabilities['device']}",
                          "-filter_hw_device", "va"]
```
Note the membership test is against the *keys* of the encoders dict, and the
key looked up is `codec + "_vaapi"`. -/
def select_video_encoder (forceSoftware : Bool) (caps : Capabilities)
    (codec : Option String) : Option String × List String :=
  if forceSoftware = false ∧ caps.hwaccel = some ("vaapi") then
    match codec with
    | some c =>
        if c ≠ "" ∧ (caps.encoders.lookup (c ++ "_vaapi")).isSome then
          (some (c ++ "_vaapi"),
           ["-init_hw_device", "vaapi=va:" ++ caps.device, "-filter_hw_device", "va"])
        else (none, [])
    | none => (none, [])
  else (none, [])

/-- Line 922: `video_encoder or capabilities.get("fallback_encoders", {}).get(codec, "libx264")`.
`codec` here is the raw (possibly `None`) parameter; `dict.get(None, d)` is the
default. -/
def target_video_codec (videoEncoder : Option String) (caps : Capabilities)
    (codec : Option String) : String :=
  match videoEncoder with
  | some e => e
  | none =>
      match codec with
      | none => "libx264"
      | some c => (caps.fallbackEncoders.lookup c).getD ("libx264")

/-- A stream entry of an ffprobe report, as `generate_ffmpeg_command` reads it:
`s["codec_type"]` (indexing — assumed present) and `s.get("codec_name")`
(may be absent). -/
structure PStream where
  codecType : String
  codecName : Option String
deriving DecidableEq, Repr

/-- The part of a successful `get_file_info` report the builder uses.  A failed
probe returns the empty dict `{}`, modelled as `none` at the use sites. -/
structure FFInfo where
  streams : List PStream
deriving DecidableEq, Repr

/-- Lines 937-939: map the probed codec name to a standard name (identity in
this version of the table; `None` stays `None`, from `dict.get`). -/
def codec_std (c : Option String) : Option String :=
  match c with
  | some s => if s = "h264" then some ("h264") else if s = "hevc" then some ("hevc") else some s
  | none => none

/-- Python truthiness of the `scale` string option: `None` and `""` are falsy. -/
def scaleFalsy (scale : Option String) : Bool :=
  scale = none ∨ scale = some ("")

/-- Lines 928-931: `v_streams = [s for s in streams if s["codec_type"] == "video"]`
followed by taking `v_streams[0]` when non-empty. -/
def first_video_stream (info : FFInfo) : Option PStream :=
  (info.streams.filter (fun s => s.codecType = "video")).head?

/-- The smart-encode decision (lines 925-949): with `smart_encode` on and a
non-empty probe, take the first `codec_type == "video"` stream and copy the
video stream exactly when
`input_codec_std == codec and (not scale or scale == "1080p")`.
`inputInfo = none` stands for the falsy empty dict. -/
def smart_copy (smartEncode : Bool) (inputInfo : Option FFInfo)
    (codec : Option String) (scale : Option String) : Bool :=
  match inputInfo with
  | none => false
  | some info =>
      if smartEncode then
        match first_video_stream info with
        | none => false
        | some v =>
            decide (codec_std v.codecName = codec) &&
              (scaleFalsy scale || scale = some ("1080p"))
      else false

/-- `x or default` resolution of an optional string (None and "" are falsy). -/
def resolve_or (v : Option String) (dflt : String) : String :=
  match v with
  | some c => if c = "" then dflt else c
  | none => dflt

/-- Python truthiness of an optional string (None and "" falsy). -/
def strTruthy (s : Option String) : Bool :=
  match s with
  | none => false
  | some v => v ≠ ""

/-- `generate_ffmpeg_command` (lines 791-1041).  External probe output is the
`probe` parameter (what `get_file_info` would return; `none` = the empty dict
of a failed probe).  The `allow_fallback` parameter of the source is unused by
the source body and is omitted.  In the non-copy branch the source evaluates
the name `using_software`, which is defined nowhere in the function:

* line 967 `if video_encoder or using_software:` — when `video_encoder` is
  falsy, `or` evaluates its right operand and raises `NameError`;
* when `video_encoder` is truthy, the block is entered and line 970
  `if using_software and crf is not None:` evaluates `using_software`
  unconditionally — again `NameError`.

Either way the call raises an unhandled `NameError` instead of returning. -/
def generate_ffmpeg_command (inputFile outputFile : String) (caps : Capabilities)
    (codec scale audioCodec : Option String) (forceSoftware : Bool)
    (crf : Option Int) (bitrate audioBitrate : Option String)
    (flacCompression : Option Int)
    (overwrite quiet progressFlag smartEncode preserveAllAudio preserveSubtitles
      removeAttachments : Bool)
    (probe : Option FFInfo) : Except PyErr (List String) :=
  match infer_defaults_from_extension outputFile with
  | Except.error e => Except.error e
  | Except.ok (containerExt, defaultVideo, defaultAudio) =>
    -- `video_codec = codec or default_video` (falsy None/"" -> default)
    let videoCodec := resolve_or codec defaultVideo
    let audioCodecR := resolve_or audioCodec defaultAudio
    if validate_config_no_container_errors scale crf bitrate (some audioCodecR)
        audioBitrate flacCompression ≠ [] then
      Except.error (PyErr.valueError ("Invalid CLI options settings"))
    else if validate_codecs_errors containerExt videoCodec audioCodecR ≠ [] then
      Except.error (PyErr.valueError ("Invalid CLI options settings"))
    else
      let cmd0 := ["ffmpeg"] ++ (if quiet then [] else ["-hide_banner"]) ++
        (if overwrite then ["-y"] else ["-n"])
      -- (the selected video_encoder feeds target_video_codec, which only the
      -- unreachable encode branch reads; its device args feed the command)
      let sel := select_video_encoder forceSoftware caps codec
      let cmd1 := cmd0 ++ sel.2 ++ ["-i", inputFile]
      -- line 918: the probe runs only when one of these flags is set
      let inputInfo := if smartEncode || preserveAllAudio || preserveSubtitles
        then probe else none
      let isVideoCopy := smart_copy smartEncode inputInfo codec scale
      match (if isVideoCopy then Except.ok (["-c:v", "copy"])
             else
               -- lines 953-971: video_args = ["-c:v", target_video_codec]
               -- (++ scaling filter args from parse_resolution); then the
               -- undefined name using_software is evaluated (see docstring)
               Except.error (PyErr.nameError ("using_software")) :
             Except PyErr (List String)) with
      | Except.error e => Except.error e
      | Except.ok videoArgs =>
        let audioArgs :=
          (if preserveAllAudio then ["-map", "0:a"] else []) ++
            ["-c:a", if audioCodecR = "" then "aac" else audioCodecR] ++
            (if strTruthy audioBitrate ∧ audioCodecR ≠ "copy" then
               ["-b:a", audioBitrate.getD ("")] else []) ++
            (match flacCompression with
             | some f => if audioCodecR = "flac" then ["-compression_level", toString f] else []
             | none => []) ++
            (if audioCodecR = "opus" ∨ audioCodecR = "libopus" then ["-ac", "2"] else [])
        let subArgs :=
          if preserveSubtitles then
            ["-map", "0:s?"] ++
              (if path_suffix_lower outputFile = ".mp4" then ["-c:s", "mov_text"]
               else ["-c:s", "copy"])
          else []
        let attArgs := if removeAttachments then ["-map", "-0:t?"] else []
        let mappedStreams := preserveAllAudio || preserveSubtitles || removeAttachments
        let cmd2 := cmd1 ++
          (if mappedStreams then
             (if isVideoCopy then ["-map", "0:v"] else ["-map", "0:v:0"])
           else [])
        Except.ok (cmd2 ++ videoArgs ++ audioArgs ++ subArgs ++ attArgs ++
          (if progressFlag then ["-progress", "pipe:1", "-nostats"] else []) ++
          [outputFile])

/-! ## Claims about the command builder (C2, C3, C4) -/

/-- C2: for every invocation of `generate_ffmpeg_command` in which video
stream-copy is not selected (the encode branch is taken — i.e. the output
extension is supported, both validation passes succeed and the smart-copy
decision is false), evaluation reaches the undefined name `using_software`
and the call raises an unhandled `NameError` instead of returning a command
list. -/
theorem encode_branch_raises_name_error
    (inputFile outputFile : String) (caps : Capabilities)
    (codec scale audioCodec : Option String) (forceSoftware : Bool)
    (crf : Option Int) (bitrate audioBitrate : Option String)
    (flacCompression : Option Int)
    (overwrite quiet progressFlag smartEncode preserveAllAudio preserveSubtitles
      removeAttachments : Bool)
    (probe : Option FFInfo) (ext dv da : String)
    (hdef : infer_defaults_from_extension outputFile = Except.ok (ext, dv, da))
    (hcfg : validate_config_no_container_errors scale crf bitrate
      (some (resolve_or audioCodec da)) audioBitrate flacCompression = [])
    (hcodecs : validate_codecs_errors ext (resolve_or codec dv)
      (resolve_or audioCodec da) = [])
    (hcopy : smart_copy smartEncode
      (if smartEncode || preserveAllAudio || preserveSubtitles then probe else none)
      codec scale = false) :
    generate_ffmpeg_command inputFile outputFile caps codec scale audioCodec
      forceSoftware crf bitrate audioBitrate flacCompression overwrite quiet
      progressFlag smartEncode preserveAllAudio preserveSubtitles
      removeAttachments probe = Except.error (PyErr.nameError ("using_software")) := by
  unfold generate_ffmpeg_command
  rw [hdef]
  simp only [Bool.or_eq_true] at hcopy
  simp [hcfg, hcodecs, hcopy]

/-- Closed instance of `encode_branch_raises_name_error`: transcoding to
`out.mp4` with codec `h264`, no smart-encode and no hardware raises the
`NameError`. -/
theorem encode_branch_raises_name_error_witness :
    generate_ffmpeg_command ("in.mkv") ("out.mp4")
      (detect_capabilities false false false) (some ("h264")) none none false
      none none none none false true false false false false false none
      = Except.error (PyErr.nameError ("using_software")) :=
  encode_branch_raises_name_error "in.mkv" "out.mp4"
    (detect_capabilities false false false) (some ("h264")) none none false
    none none none none false true false false false false false none
    ".mp4" "h264" "aac" rfl rfl rfl rfl

/-- "_vaapi" has six characters, so `codec + "_vaapi"` never equals a plain
codec-name key of the detected encoders dict (those have length at most 4). -/
theorem append_vaapi_ne (c s : String) (hs : s.length < 6) : (c ++ "_vaapi") ≠ s := by
  intro h
  have h6 : ("_vaapi" : String).length = 6 := rfl
  have hlen : (c ++ "_vaapi").length = c.length + 6 := by
    rw [String.length_append, h6]
  rw [h] at hlen
  omega

theorem append_vaapi_beq_h264 (c : String) : ((c ++ "_vaapi") == "h264") = false :=
  beq_eq_false_iff_ne.mpr (append_vaapi_ne c "h264" (by decide))

theorem append_vaapi_beq_hevc (c : String) : ((c ++ "_vaapi") == "hevc") = false :=
  beq_eq_false_iff_ne.mpr (append_vaapi_ne c "hevc" (by decide))

/-- C3: the code_bug, evaluated.  `detect_capabilities` keys its `encoders`
dict by plain codec name (here `"h264" ↦ "h264_vaapi"` with
`hwaccel = "vaapi"`), but the builder's selection block looks the key
`codec + "_vaapi"` up, so with `force_software=False` and a detect()-produced
snapshot whose encoders contain an entry for the requested codec, the
hardware branch is never taken: no hardware encoder, no device-init
arguments, and the target codec falls back to the software encoder
`libx264`.  The final conjunct generalizes this: for every detect() outcome
and every requested codec, the selection block yields `(none, [])`. -/
theorem detect_entries_never_match_builder_lookup :
    (detect_capabilities true true true).encoders.lookup ("h264") = some ("h264_vaapi") ∧
    (detect_capabilities true true true).hwaccel = some ("vaapi") ∧
    select_video_encoder false (detect_capabilities true true true) (some ("h264"))
      = (none, []) ∧
    target_video_codec
      (select_video_encoder false (detect_capabilities true true true) (some ("h264"))).1
      (detect_capabilities true true true) (some ("h264")) = "libx264" ∧
    (∀ (deviceExists h264ok hevcok forceSoftware : Bool) (c : String),
      select_video_encoder forceSoftware (detect_capabilities deviceExists h264ok hevcok)
        (some c) = (none, [])) := by
  refine ⟨by decide, by decide, by decide, by decide, ?_⟩
  intro deviceExists h264ok hevcok forceSoftware c
  unfold select_video_encoder detect_capabilities
  cases deviceExists <;> cases h264ok <;> cases hevcok <;> cases forceSoftware <;>
    simp [List.lookup, append_vaapi_beq_h264, append_vaapi_beq_hevc]

/-- C4 counterexample: with smart-encode on, a probe whose first video stream
already has codec `h264`, requested codec `h264` and a *requested* scale of
`"1080p"` (a truthy scale, so the claim demands re-encoding), the builder
still selects video stream-copy. -/
theorem copy_despite_requested_scale_1080p :
    smart_copy true (some ⟨[⟨"video", some ("h264")⟩]⟩) (some ("h264"))
      (some ("1080p")) = true ∧
    scaleFalsy (some ("1080p")) = false := by
  exact ⟨by decide, by decide⟩

/-- C4 amended: with smart-encode enabled, video switches to pure stream-copy
exactly when the probe (a non-empty report) has a first video stream whose
(standardized) codec equals the requested codec and the requested scale is
falsy (absent or empty) **or is the literal string "1080p"**; in particular a
requested scale of 1080p does not force re-encoding. -/
theorem smart_copy_characterization (smartEncode : Bool) (inputInfo : Option FFInfo)
    (codec scale : Option String) :
    smart_copy smartEncode inputInfo codec scale = true ↔
      smartEncode = true ∧ ∃ info, inputInfo = some info ∧
        ∃ v, first_video_stream info = some v ∧
          codec_std v.codecName = codec ∧
          (scaleFalsy scale = true ∨ scale = some ("1080p")) := by
  unfold smart_copy
  cases inputInfo with
  | none => simp
  | some info =>
      cases smartEncode with
      | false => simp
      | true =>
          cases hv : first_video_stream info with
          | none => simp [hv]
          | some v =>
              simp [hv, Bool.and_eq_true, decide_eq_true_eq, Bool.or_eq_true]

/-! ## The process supervisor: `TranscodeProcess._read_output`
(effeffmpeg.py lines 470-603)

The reader thread's per-line processing.  Output lines arrive already decoded
(the `decode(errors='replace')` step never raises).  A caller-supplied
callback is modelled as a function that either returns (`none`) or raises an
exception of class `PyExc`; the *list of invocations made* (status text and
fraction argument) is returned alongside the state so theorems can speak
about what the callback was called with. -/

/-- Exception classes a progress callback may raise, as the reader's
`except` clauses distinguish them: `(ValueError, IndexError)` at line 573,
`except Exception` at line 577, no clause at all on the fallback-path
callback invocation (line 600). -/
inductive PyExc where
  | valueError | indexError | zeroDivisionError | otherExc
deriving DecidableEq, Repr

/-- One callback invocation: (status text, fraction or None). -/
abbrev CbCall := String × Option ℚ

/-- A caller-supplied progress callback: `some e` means it raises `e`. -/
abbrev Callback := String → Option ℚ → Option PyExc

/-- Python whitespace for `str.strip` and the regex class `\s`. -/
def isPyWs (c : Char) : Bool :=
  c.toNat = 32 ∨ c.toNat = 9 ∨ c.toNat = 10 ∨ c.toNat = 13 ∨
    c.toNat = 11 ∨ c.toNat = 12

/-- Python `str.strip()`. -/
def pyStrip (l : List Char) : List Char :=
  ((l.dropWhile isPyWs).reverse.dropWhile isPyWs).reverse

/-- Python `str.split(sep, 1)` when the separator occurs: the text before the
first separator and everything after it.  `none` when the separator is
absent. -/
def splitOnceAt (sep : Char) : List Char → Option (List Char × List Char)
  | [] => none
  | c :: cs =>
      if c = sep then some ([], cs)
      else (splitOnceAt sep cs).map (fun p => (c :: p.1, p.2))

/-- Digits of a decimal number, most significant first. -/
def natOfDigits (l : List Char) : Nat :=
  l.foldl (fun acc c => 10 * acc + (c.toNat - 48)) 0

/-- `float('0.' + digits)`: the fractional part named by a digit run. -/
def fracOfDigits (l : List Char) : ℚ :=
  (natOfDigits l : ℚ) / (10 : ℚ) ^ l.length

/-- A maximal leading digit run and the rest. -/
def takeDigits (l : List Char) : List Char × List Char :=
  (l.takeWhile Char.isDigit, l.dropWhile Char.isDigit)

/-- Python `float()` on the simple decimal literals that appear in ffmpeg
telemetry (`"00"`, `"01.50"`, `".5"`): surrounding whitespace stripped, a
digit run, optionally a dot and a further digit run, at least one digit in
all.  Other float syntax (signs, exponents) does not arise in the parsed
fields and is modelled as a `ValueError` (`none`). -/
def pyFloat (l0 : List Char) : Option ℚ :=
  let l := pyStrip l0
  let ip := (takeDigits l).1
  match (takeDigits l).2 with
  | [] => if ip = [] then none else some ((natOfDigits ip : ℚ))
  | '.' :: fp =>
      if fp.all Char.isDigit ∧ (ip ≠ [] ∨ fp ≠ []) then
        some ((natOfDigits ip : ℚ) + fracOfDigits fp)
      else none
  | _ => none

/-- Consume an expected literal character sequence, returning the rest. -/
def dropLit : List Char → List Char → Option (List Char)
  | [], l => some l
  | _ :: _, [] => none
  | c :: cs, x :: xs => if x = c then dropLit cs xs else none

/-- The clock part `(\d+):(\d+):(\d+)(?:\.(\d+))?` of the reader's duration
and time regexes, matched at the current position; yields total seconds. -/
def matchClockAt (l : List Char) : Option ℚ :=
  let h := (takeDigits l).1
  let l1 := (takeDigits l).2
  if h = [] then none
  else
    match l1 with
    | ':' :: l2 =>
        let m := (takeDigits l2).1
        let l3 := (takeDigits l2).2
        if m = [] then none
        else
          match l3 with
          | ':' :: l4 =>
              let s := (takeDigits l4).1
              let l5 := (takeDigits l4).2
              if s = [] then none
              else
                let base : ℚ := (natOfDigits h : ℚ) * 3600 +
                  (natOfDigits m : ℚ) * 60 + (natOfDigits s : ℚ)
                match l5 with
                | '.' :: l6 =>
                    let f := (takeDigits l6).1
                    if f = [] then some base else some (base + fracOfDigits f)
                | _ => some base
          | _ => none
    | _ => none

/-- `Duration:\s*<clock>` matched at the current position. -/
def matchDurationAt (l : List Char) : Option ℚ :=
  match dropLit (("Duration:").data) l with
  | some r => matchClockAt (r.dropWhile isPyWs)
  | none => none

/-- `re.search` of the duration pattern (line 461): leftmost match. -/
def searchDurationChars : List Char → Option ℚ
  | [] => none
  | c :: cs =>
      match matchDurationAt (c :: cs) with
      | some v => some v
      | none => searchDurationChars cs

/-- `time=\s*<clock>` matched at the current position (pattern of line 463). -/
def matchTimeAt (l : List Char) : Option ℚ :=
  match dropLit (("time=").data) l with
  | some r => matchClockAt (r.dropWhile isPyWs)
  | none => none

/-- `re.search` of the time pattern: leftmost match. -/
def searchTimeChars : List Char → Option ℚ
  | [] => none
  | c :: cs =>
      match matchTimeAt (c :: cs) with
      | some v => some v
      | none => searchTimeChars cs

/-- `out_time`'s value parsing (lines 536-543): split on ':', require three
parts, convert each with `float()`; `h*3600 + m*60 + s`. -/
def outTimeSeconds (v : List Char) : Option ℚ :=
  match splitOnChar ':' v with
  | [h, m, s] =>
      match pyFloat h, pyFloat m, pyFloat s with
      | some hv, some mv, some sv => some (hv * 3600 + mv * 60 + sv)
      | _, _, _ => none
  | _ => none

/-- `dict[key] = value` on an association list in insertion order. -/
def updateAssoc (l : List (String × String)) (k v : String) :
    List (String × String) :=
  if (l.lookup k).isSome then l.map (fun p => if p.1 = k then (k, v) else p)
  else l ++ [(k, v)]

/-- Python truthiness of the duration float (None and 0.0 falsy). -/
def durTruthy (d : Option ℚ) : Bool :=
  match d with
  | none => false
  | some x => x ≠ 0

/-- The reader's per-stream state: `_duration_seconds`, the local
`progress_data` dict, and the captured line buffer. -/
structure RState where
  durationSeconds : Option ℚ
  progressData : List (String × String)
  buffer : List String
deriving DecidableEq, Repr

/-- Lines 494-507: `if self._duration_seconds is None:` search the line for
the duration pattern and record the first match. -/
def durationScan (st : RState) (chars : List Char) : RState :=
  if st.durationSeconds = none then
    match searchDurationChars chars with
    | some v => { st with durationSeconds := some v }
    | none => st
  else st

/-- Abbreviated reconstruction of the status text built at lines 547-566
(time/frame/fps/speed/ETA).  No claim constrains this text — only the
fraction argument of the callback — so the elaborate f-string formatting is
condensed; the data it draws on (the value and the progress dict) is kept. -/
def outTimeStatus (pd : List (String × String)) (value : String) : String :=
  "Time: " ++ value ++ ", Speed: " ++ ((pd.lookup ("speed")).getD ("N/A"))

/-- The `out_time` report (lines 534-572): parse the value; on success invoke
the callback with `min(current_seconds / duration, 1.0)`; a `float()`
`ValueError` is caught at line 573 and reports nothing. -/
def outTimeCalls (d : ℚ) (pd : List (String × String)) (value : String) :
    List CbCall :=
  match outTimeSeconds value.data with
  | some cur => [(outTimeStatus pd value, some (min (cur / d) 1))]
  | none => []

/-- The callback invocations made inside the key=value branch (lines
511-579).  The whole branch sits under `try ... except Exception`, so a
callback exception never escapes it: the invocation is recorded and
processing continues regardless of what the callback raises. -/
def eqBranchCalls (cb : Option Callback) (dur : Option ℚ)
    (pd : List (String × String)) (key value : String) : List CbCall :=
  if key = "progress" ∧ value = "end" then
    if cb.isSome then [("Transcoding completed!", some 1)] else []
  else if key = "out_time" then
    match dur, cb with
    | some d, some _ => if d ≠ 0 then outTimeCalls d pd value else []
    | _, _ => []
  else []

/-- The key=value branch: split once on '=', strip both sides, store the pair
in `progress_data`, then report as `eqBranchCalls` says. -/
def eqBranch (cb : Option Callback) (st : RState) (chars : List Char) :
    RState × List CbCall :=
  match splitOnceAt '=' chars with
  | none => (st, [])  -- unreachable under the branch guard `'=' in line_str`
  | some (kRaw, vRaw) =>
      let key := String.mk (pyStrip kRaw)
      let value := String.mk (pyStrip vRaw)
      let pd1 := updateAssoc st.progressData key value
      ({ st with progressData := pd1 },
        eqBranchCalls cb st.durationSeconds pd1 key value)

/-- The fallback branch (lines 581-603), taken when the line has no '=': with
a truthy duration, a callback and a non-stderr stream, search for the time
pattern; on a match invoke the callback with the line and
`min(current/duration, 1.0)`.  Only `(ValueError, IndexError)` are caught
here (line 601), so any other exception from the callback propagates out of
the reader. -/
def fallbackBranchCore (cbf : Callback) (d : ℚ) (st : RState) (line : String) :
    Except PyExc (RState × List CbCall) :=
  match searchTimeChars line.data with
  | some cur =>
      let pct := min (cur / d) 1
      match cbf line (some pct) with
      | none => Except.ok (st, [(line, some pct)])
      | some e =>
          if e = PyExc.valueError ∨ e = PyExc.indexError then
            Except.ok (st, [(line, some pct)])
          else Except.error e
  | none => Except.ok (st, [])

def fallbackBranch (cb : Option Callback) (isStderr : Bool) (st : RState)
    (line : String) : Except PyExc (RState × List CbCall) :=
  match st.durationSeconds, cb with
  | some d, some cbf =>
      if d ≠ 0 ∧ isStderr = false then fallbackBranchCore cbf d st line
      else Except.ok (st, [])
  | _, _ => Except.ok (st, [])

/-- One iteration of the reader loop (lines 475-603): append the line to the
buffer, scan for a duration if none is known, then take the key=value branch
when the line contains '=' and the fallback branch otherwise. -/
def processLine (cb : Option Callback) (isStderr : Bool) (st : RState)
    (line : String) : Except PyExc (RState × List CbCall) :=
  let st0 : RState := { st with buffer := st.buffer ++ [line] }
  let st1 := durationScan st0 line.data
  if '=' ∈ line.data then Except.ok (eqBranch cb st1 line.data)
  else fallbackBranch cb isStderr st1 line

/-- The reader loop over a whole sequence of output lines; an uncaught
exception aborts it with the remaining lines unprocessed. -/
def readLines (cb : Option Callback) (isStderr : Bool) :
    RState → List String → Except PyExc (RState × List CbCall)
  | st, [] => Except.ok (st, [])
  | st, l :: ls =>
      match processLine cb isStderr st l with
      | Except.error e => Except.error e
      | Except.ok (st1, calls1) =>
          match readLines cb isStderr st1 ls with
          | Except.error e => Except.error e
          | Except.ok (st2, calls2) => Except.ok (st2, calls1 ++ calls2)

/-! ## The blocking `transcode` tail and `_run_job_logic` (C1, C6) -/

/-- The tail of the blocking-with-callback path of `transcode`
(effeffmpeg.py lines 1242-1264): after `process.wait()`, the final
`progress_callback("Transcoding completed successfully", 1.0)` is made only
under `returncode == 0 and progress_callback and process._duration_seconds`
(line 1246; the call's own exceptions are suppressed), and the function
returns a `CompletedProcess` carrying the return code — it raises nothing on
a nonzero exit code in this mode. -/
def transcode_finish (returncode : Int) (durationSeconds : Option ℚ)
    (hasCallback : Bool) : List CbCall × Except PyErr Int :=
  (if returncode = 0 ∧ hasCallback = true ∧ durTruthy durationSeconds = true then
     [("Transcoding completed successfully", some 1)]
   else [],
   Except.ok returncode)

/-- `_run_job_logic` (transcoder.py lines 224-307): the `try` block marks the
job `completed` whenever `effeff_transcode` returns; only an exception
reaches the `except` block that marks it `failed`. -/
def run_job_status (spawn : Except PyErr Int) : String :=
  match spawn with
  | Except.ok _ => "completed"
  | Except.error _ => "failed"

/-- A job's final status as a function of its process's exit code, through
the blocking-with-callback `transcode` that `_run_job_logic` uses
(`progress_callback` always passed, `non_blocking` false). -/
def run_job_final_status (returncode : Int) (durationSeconds : Option ℚ) : String :=
  run_job_status (transcode_finish returncode durationSeconds true).2

/-! ## Claims about the supervisor and the job outcome (C1, C5, C6, C7) -/

/-- C1: the code_bug, evaluated.  A supervised job whose transcode process
exits with a *nonzero* code is still marked `completed`: the
blocking-with-callback path of `transcode` returns a `CompletedProcess`
without inspecting the exit code (its docstring promises a
`CalledProcessError` on failure in blocking mode), so `_run_job_logic`'s
`try` block runs to its `job.status = "completed"` line.  The final conjunct
shows no exit code at all can make this path yield `failed`. -/
theorem nonzero_exit_still_completed :
    run_job_final_status 1 (some 120) = "completed" ∧
    run_job_final_status 1 none = "completed" ∧
    (∀ (rc : Int) (dur : Option ℚ), run_job_final_status rc dur = "completed") :=
  ⟨rfl, rfl, fun _ _ => rfl⟩

theorem dropLit_eq_append (lit : List Char) :
    ∀ l r : List Char, dropLit lit l = some r → l = lit ++ r := by
  induction lit with
  | nil =>
      intro l r h
      simp only [dropLit, Option.some.injEq] at h
      simpa using h
  | cons c cs ih =>
      intro l r h
      cases l with
      | nil => simp [dropLit] at h
      | cons x xs =>
          by_cases hx : x = c
          · subst hx
            simp only [dropLit, if_pos rfl] at h
            have hxs := ih xs r h
            simp [hxs]
          · simp [dropLit, hx] at h

theorem matchTimeAt_eq_mem (l : List Char) (v : ℚ) (h : matchTimeAt l = some v) :
    '=' ∈ l := by
  unfold matchTimeAt at h
  cases hd : dropLit (("time=").data) l with
  | none => rw [hd] at h; exact absurd h (by simp)
  | some r =>
      rw [dropLit_eq_append _ l r hd]
      exact List.mem_append_left _ (by decide)

theorem searchTimeChars_eq_mem :
    ∀ (l : List Char) (v : ℚ), searchTimeChars l = some v → '=' ∈ l := by
  intro l
  induction l with
  | nil => intro v h; simp [searchTimeChars] at h
  | cons c cs ih =>
      intro v h
      unfold searchTimeChars at h
      cases hm : matchTimeAt (c :: cs) with
      | some w => exact matchTimeAt_eq_mem _ w hm
      | none =>
          rw [hm] at h
          exact List.mem_cons_of_mem _ (ih v h)

theorem durationScan_buffer (st : RState) (cs : List Char) :
    (durationScan st cs).buffer = st.buffer := by
  unfold durationScan
  split
  · split <;> rfl
  · rfl

theorem durationScan_of_some (st : RState) (cs : List Char) (d : ℚ)
    (h : st.durationSeconds = some d) : durationScan st cs = st := by
  unfold durationScan
  rw [if_neg (by simp [h])]

theorem eqBranch_buffer (cb : Option Callback) (st : RState) (cs : List Char) :
    (eqBranch cb st cs).1.buffer = st.buffer := by
  unfold eqBranch
  split <;> rfl

theorem fallbackBranchCore_ok (cbf : Callback) (d : ℚ) (st : RState)
    (line : String) (hne : '=' ∉ line.data) :
    fallbackBranchCore cbf d st line = Except.ok (st, []) := by
  unfold fallbackBranchCore
  cases hs : searchTimeChars line.data with
  | some cur => exact absurd (searchTimeChars_eq_mem _ cur hs) hne
  | none => rfl

theorem fallbackBranch_ok (cb : Option Callback) (isStderr : Bool) (st : RState)
    (line : String) (hne : '=' ∉ line.data) :
    fallbackBranch cb isStderr st line = Except.ok (st, []) := by
  unfold fallbackBranch
  split
  · split
    · exact fallbackBranchCore_ok _ _ _ _ hne
    · rfl
  · rfl

theorem processLine_ok (cb : Option Callback) (isStderr : Bool) (st : RState)
    (line : String) :
    ∃ st1 calls, processLine cb isStderr st line = Except.ok (st1, calls) ∧
      st1.buffer = st.buffer ++ [line] := by
  by_cases he : '=' ∈ line.data
  · refine ⟨(eqBranch cb (durationScan { st with buffer := st.buffer ++ [line] }
        line.data) line.data).1,
      (eqBranch cb (durationScan { st with buffer := st.buffer ++ [line] }
        line.data) line.data).2, ?_, ?_⟩
    · unfold processLine
      rw [if_pos he]
    · rw [eqBranch_buffer, durationScan_buffer]
  · refine ⟨durationScan { st with buffer := st.buffer ++ [line] } line.data,
      [], ?_, ?_⟩
    · unfold processLine
      rw [if_neg he]
      exact fallbackBranch_ok cb isStderr _ line he
    · rw [durationScan_buffer]

/-- C5: an exception raised inside a caller-supplied progress callback never
aborts telemetry parsing.  For *every* callback (including one that raises on
every invocation, with any exception class), every stream role and every
sequence of output lines, the reader runs to completion — no uncaught
exception — and its final buffer shows every line was processed.  On the
structured key=value path callback exceptions are swallowed by the
`except Exception` at line 577; the fallback regex path's narrower handler is
never exercised by a callback because its time pattern contains a literal '='
while the path itself is only reached for lines without '='. -/
theorem reader_processes_all_lines (cb : Option Callback) (isStderr : Bool)
    (st : RState) (lines : List String) :
    ∃ st2 calls, readLines cb isStderr st lines = Except.ok (st2, calls) ∧
      st2.buffer = st.buffer ++ lines := by
  induction lines generalizing st with
  | nil => exact ⟨st, [], rfl, by simp⟩
  | cons l ls ih =>
      obtain ⟨st1, c1, h1, hb1⟩ := processLine_ok cb isStderr st l
      obtain ⟨st2, c2, h2, hb2⟩ := ih st1
      refine ⟨st2, c1 ++ c2, ?_, ?_⟩
      · simp only [readLines, h1, h2]
      · rw [hb2, hb1, List.append_assoc]
        rfl

theorem splitOnceAt_some_mem (sep : Char) :
    ∀ (l : List Char) (p : List Char × List Char),
      splitOnceAt sep l = some p → sep ∈ l := by
  intro l
  induction l with
  | nil => intro p h; simp [splitOnceAt] at h
  | cons c cs ih =>
      intro p h
      unfold splitOnceAt at h
      by_cases hc : c = sep
      · exact hc ▸ List.mem_cons_self _ _
      · rw [if_neg hc] at h
        cases hs : splitOnceAt sep cs with
        | none => rw [hs] at h; simp at h
        | some q => exact List.mem_cons_of_mem _ (ih q hs)

/-- C7: the reported fraction.  First conjunct: for every output line that
parses as a progress record `out_time=<v>` (split at the first '=', stripped
key equal to `out_time`, value convertible to seconds `cur`) while the total
duration `d` is known (and truthy), the reader invokes the callback with
fraction exactly `min (cur / d) 1`.  Second conjunct: every line parsing as
`progress=end` makes the reader invoke the callback with fraction exactly
`1`. -/
theorem progress_fraction_formula :
    (∀ (cb : Callback) (isStderr : Bool) (st : RState) (line : String)
        (kRaw vRaw : List Char) (d cur : ℚ),
      splitOnceAt '=' line.data = some (kRaw, vRaw) →
      String.mk (pyStrip kRaw) = "out_time" →
      st.durationSeconds = some d → d ≠ 0 →
      outTimeSeconds (pyStrip vRaw) = some cur →
      ∃ st1 s, processLine (some cb) isStderr st line
        = Except.ok (st1, [(s, some (min (cur / d) 1))])) ∧
    (∀ (cb : Callback) (isStderr : Bool) (st : RState) (line : String)
        (kRaw vRaw : List Char),
      splitOnceAt '=' line.data = some (kRaw, vRaw) →
      String.mk (pyStrip kRaw) = "progress" →
      String.mk (pyStrip vRaw) = "end" →
      ∃ st1, processLine (some cb) isStderr st line
        = Except.ok (st1, [("Transcoding completed!", some 1)])) := by
  constructor
  · intro cb isStderr st line kRaw vRaw d cur hsplit hkey hdur hd0 hval
    have hm : '=' ∈ line.data := splitOnceAt_some_mem '=' line.data _ hsplit
    have hkne : ¬ (("out_time" : String) = "progress") := by decide
    simp only [processLine, durationScan, eqBranch, eqBranchCalls, outTimeCalls,
      hm, hsplit, hkey, hdur, hd0, hval, hkne, if_true, if_false, false_and,
      and_false, eq_self_iff_true, ne_eq, not_false_eq_true, ite_true,
      ite_false, Option.isSome_some, reduceCtorEq]
    exact ⟨_, _, rfl⟩
  · intro cb isStderr st line kRaw vRaw hsplit hkey hval
    have hm : '=' ∈ line.data := splitOnceAt_some_mem '=' line.data _ hsplit
    simp only [processLine, eqBranch, eqBranchCalls, hm, hsplit, hkey, hval,
      if_true, eq_self_iff_true, and_self, ite_true, Option.isSome_some]
    exact ⟨_, rfl⟩

/-- Closed instance of `progress_fraction_formula`: with total duration 120s,
the record `out_time=00:01:00.00` (elapsed 60s) is reported with fraction
`min (60/120) 1 = 1/2`, and `progress=end` is reported with fraction 1. -/
theorem progress_fraction_formula_witness :
    (∃ st1 s, processLine (some (fun _ _ => some PyExc.otherExc)) false
        ⟨some 120, [], []⟩ ("out_time=00:01:00.00")
        = Except.ok (st1, [(s, some (min ((60 : ℚ) / 120) 1))])) ∧
    (∃ st1, processLine (some (fun _ _ => some PyExc.otherExc)) false
        ⟨some 120, [], []⟩ ("progress=end")
        = Except.ok (st1, [("Transcoding completed!", some 1)])) :=
  ⟨progress_fraction_formula.1 (fun _ _ => some PyExc.otherExc) false
      ⟨some 120, [], []⟩ "out_time=00:01:00.00"
      (("out_time").data) (("00:01:00.00").data) 120 60
      (by decide) (by decide) rfl (by norm_num)
      (by simp +decide [outTimeSeconds, pyFloat, pyStrip, takeDigits,
        splitOnChar, natOfDigits, fracOfDigits]),
    progress_fraction_formula.2 (fun _ _ => some PyExc.otherExc) false
      ⟨some 120, [], []⟩ "progress=end" (("progress").data) (("end").data)
      (by decide) (by decide) (by decide)⟩

/-- C6 counterexample: a clean exit (code 0) of the supervised blocking
transcode with a callback installed but *no* media duration detected makes no
final callback invocation at all — refuting "a final callback with fraction
1.0 regardless of whether a media duration was seen". -/
theorem no_final_callback_without_duration :
    (transcode_finish 0 none true).1 = [] := rfl

/-- C6 amended: the blocking-with-callback transcode makes a final callback
invocation exactly when the exit code is 0, a callback is installed *and* a
truthy (nonzero) media duration was detected; that invocation then carries
fraction exactly 1.0.  Whether progress records were seen is irrelevant, but
a missing duration suppresses the final call. -/
theorem final_callback_characterization (rc : Int) (dur : Option ℚ)
    (hasCb : Bool) (s : String) (f : Option ℚ) :
    (s, f) ∈ (transcode_finish rc dur hasCb).1 ↔
      rc = 0 ∧ hasCb = true ∧ durTruthy dur = true ∧
        s = "Transcoding completed successfully" ∧ f = some 1 := by
  unfold transcode_finish
  by_cases h : rc = 0 ∧ hasCb = true ∧ durTruthy dur = true
  · rw [if_pos h]
    simp only [List.mem_singleton, Prod.mk.injEq]
    constructor
    · rintro ⟨hs, hf⟩
      exact ⟨h.1, h.2.1, h.2.2, hs, hf⟩
    · rintro ⟨_, _, _, hs, hf⟩
      exact ⟨hs, hf⟩
  · rw [if_neg h]
    simp only [List.not_mem_nil, false_iff]
    rintro ⟨h0, hcb, hd, _, _⟩
    exact h ⟨h0, hcb, hd⟩

/-! ## The job queue (transcoder.py) — C8, C9

A `TranscodeJob` record as the queue functions read it; the job table is a
list in insertion order.  `created_at` is a creation timestamp. -/

structure QJob where
  id : String
  createdAt : Nat
  status : String
deriving DecidableEq, Repr

/-- `get_running_job_count` (lines 126-128): jobs with status "processing". -/
def get_running_job_count (db : List QJob) : Nat :=
  (db.filter (fun j => j.status = "processing")).length

/-- `get_pending_jobs` (lines 131-133): jobs with status "pending" ordered by
`created_at` ascending. -/
def get_pending_jobs (db : List QJob) : List QJob :=
  List.insertionSort (fun a b => a.createdAt ≤ b.createdAt)
    (db.filter (fun j => j.status = "pending"))

/-- The admission pass of `process_job_queue` (lines 201-221):
`available_slots = max(0, max_jobs - current_running)`; nothing starts when
no slot is free; otherwise the first `available_slots` pending jobs in
creation order are started. -/
def jobs_to_start (maxJobs : Int) (db : List QJob) : List QJob :=
  if max 0 (maxJobs - (get_running_job_count db : Int)) ≤ 0 then []
  else (get_pending_jobs db).take
    (max 0 (maxJobs - (get_running_job_count db : Int))).toNat

/-- The ids `process_job_queue` hands to `_start_transcode_job_thread`. -/
def process_job_queue (maxJobs : Int) (db : List QJob) : List String :=
  (jobs_to_start maxJobs db).map QJob.id

/-- A status update of one job record (the worker thread's
`job.status = ...; commit`). -/
def set_status (db : List QJob) (jid : String) (s : String) : List QJob :=
  db.map (fun j => if j.id = jid then ⟨j.id, j.createdAt, s⟩ else j)

/-- `create_job` (lines 95-113): a fresh record in status "pending" appended
to the table. -/
def create_job (db : List QJob) (jid : String) (t : Nat) : List QJob :=
  db ++ [⟨jid, t, "pending"⟩]

/-- `start_transcode` (lines 136-149): a freshly created job starts
immediately when `current_running < max_jobs` (its thread marks it
"processing"); otherwise it stays pending for `process_job_queue`. -/
def start_transcode_step (maxJobs : Int) (db : List QJob) (jid : String) :
    List QJob :=
  if (get_running_job_count db : Int) < maxJobs then set_status db jid "processing"
  else db

/-- `remove_job` (lines 186-198): fetch by id; delete and return True only
when the status is one of completed/failed/cancelled; otherwise return False
with the table unchanged. -/
def remove_job (db : List QJob) (jid : String) : Bool × List QJob :=
  match db.find? (fun j => j.id = jid) with
  | none => (false, db)
  | some j =>
      if j.status = "completed" ∨ j.status = "failed" ∨ j.status = "cancelled" then
        (true, db.eraseP (fun k => k.id = jid))
      else (false, db)

/-- The C8 scenario: jobs A, B, C created in that order under
`max_concurrent = 1`, each handed to `start_transcode` on creation. -/
def scenario_db3 : List QJob :=
  start_transcode_step 1
    (create_job
      (start_transcode_step 1
        (create_job (start_transcode_step 1 (create_job [] ("A") 1) ("A"))
          ("B") 2) ("B"))
      ("C") 3) ("C")

/-- The C8 scenario after A reaches a terminal status. -/
def scenario_db4 : List QJob := set_status scenario_db3 ("A") ("completed")

/-- C8: queue admission is FIFO under the concurrency cap.  Conjuncts:
(1) the pending scan is sorted by creation time ascending; (2) admitted jobs
are pending jobs of the table; (3) an admission pass admits at most
`max 0 (max_concurrent − processing count)` jobs; (4) FIFO — an admitted job
is never preceded in creation order by a pending job that was passed over;
(5) the concrete scenario: with `max_concurrent = 1` and jobs A, B, C created
in that order, only A reaches `processing` while B and C stay `pending`, no
admission happens while A runs, and once A is terminal the next admission
pass starts exactly B, never C. -/
theorem queue_admission_fifo :
    (∀ (db : List QJob),
      List.Sorted (fun a b => a.createdAt ≤ b.createdAt) (get_pending_jobs db)) ∧
    (∀ (m : Int) (db : List QJob) (j : QJob), j ∈ jobs_to_start m db →
      j ∈ db ∧ j.status = "pending") ∧
    (∀ (m : Int) (db : List QJob),
      ((jobs_to_start m db).length : Int) ≤
        max 0 (m - (get_running_job_count db : Int))) ∧
    (∀ (m : Int) (db : List QJob) (j k : QJob),
      j ∈ jobs_to_start m db → k ∈ db → k.status = "pending" →
      k.createdAt < j.createdAt → k ∈ jobs_to_start m db) ∧
    (scenario_db3 =
        [⟨"A", 1, "processing"⟩, ⟨"B", 2, "pending"⟩, ⟨"C", 3, "pending"⟩] ∧
      process_job_queue 1 scenario_db3 = [] ∧
      process_job_queue 1 scenario_db4 = [("B")]) := by
  haveI hTot : IsTotal QJob (fun a b => a.createdAt ≤ b.createdAt) :=
    ⟨fun a b => Nat.le_total _ _⟩
  haveI hTrans : IsTrans QJob (fun a b => a.createdAt ≤ b.createdAt) :=
    ⟨fun a b c hab hbc => le_trans hab hbc⟩
  have hsorted : ∀ (db : List QJob),
      List.Sorted (fun a b => a.createdAt ≤ b.createdAt) (get_pending_jobs db) :=
    fun db => List.sorted_insertionSort _ _
  have hmem : ∀ (m : Int) (db : List QJob) (j : QJob), j ∈ jobs_to_start m db →
      j ∈ get_pending_jobs db := by
    intro m db j hj
    unfold jobs_to_start at hj
    split at hj
    · simp at hj
    · exact List.take_subset _ _ hj
  have hmem2 : ∀ (db : List QJob) (j : QJob), j ∈ get_pending_jobs db →
      j ∈ db ∧ j.status = "pending" := by
    intro db j hj
    unfold get_pending_jobs at hj
    have hperm := (List.perm_insertionSort (fun a b => a.createdAt ≤ b.createdAt)
      (db.filter (fun k => k.status = "pending"))).mem_iff.mp hj
    have h2 := List.mem_filter.mp hperm
    exact ⟨h2.1, by simpa using h2.2⟩
  refine ⟨hsorted, fun m db j hj => hmem2 db j (hmem m db j hj), ?_, ?_, ?_⟩
  · intro m db
    unfold jobs_to_start
    split
    · simp
    · rename_i hpos
      have h1 : ((get_pending_jobs db).take
          (max 0 (m - (get_running_job_count db : Int))).toNat).length ≤
          (max 0 (m - (get_running_job_count db : Int))).toNat := by
        rw [List.length_take]
        omega
      omega
  · intro m db j k hj hk hkp hlt
    have hksort : k ∈ get_pending_jobs db := by
      unfold get_pending_jobs
      rw [(List.perm_insertionSort (fun a b => a.createdAt ≤ b.createdAt)
        (db.filter (fun q => q.status = "pending"))).mem_iff]
      exact List.mem_filter.mpr ⟨hk, by simpa using hkp⟩
    unfold jobs_to_start at hj ⊢
    split at hj
    · simp at hj
    · rename_i hpos
      rw [if_neg hpos]
      have hsp := hsorted db
      have hsplit := List.take_append_drop
        (max 0 (m - (get_running_job_count db : Int))).toNat (get_pending_jobs db)
      have hmemor : k ∈ (get_pending_jobs db).take
          (max 0 (m - (get_running_job_count db : Int))).toNat ∨
          k ∈ (get_pending_jobs db).drop
          (max 0 (m - (get_running_job_count db : Int))).toNat := by
        rw [← List.mem_append, hsplit]
        exact hksort
      rcases hmemor with h | h
      · exact h
      · exfalso
        have hpw : List.Pairwise (fun a b => a.createdAt ≤ b.createdAt)
            ((get_pending_jobs db).take
              (max 0 (m - (get_running_job_count db : Int))).toNat ++
              (get_pending_jobs db).drop
              (max 0 (m - (get_running_job_count db : Int))).toNat) := by
          rw [hsplit]
          exact hsp
        have hle := (List.pairwise_append.mp hpw).2.2 j hj k h
        omega
  · exact ⟨by decide, by decide, by decide⟩

/-- Closed instance of the FIFO conjunct of `queue_admission_fifo`: with two
free slots and pending jobs A (created first) and B, B's admission forces
A's. -/
theorem queue_admission_fifo_witness :
    (⟨"A", 1, "pending"⟩ : QJob) ∈ jobs_to_start 2
      [⟨"A", 1, "pending"⟩, ⟨"B", 2, "pending"⟩] :=
  queue_admission_fifo.2.2.2.1 2 [⟨"A", 1, "pending"⟩, ⟨"B", 2, "pending"⟩]
    ⟨"B", 2, "pending"⟩ ⟨"A", 1, "pending"⟩ (by decide) (by decide) rfl
    (by decide)

/-- With all job ids distinct, erasing the record with a given id leaves no
record carrying that id. -/
theorem eraseP_id_not_mem (jid : String) :
    ∀ (l : List QJob), (l.map QJob.id).Nodup →
      ∀ k ∈ l.eraseP (fun q => q.id = jid), k.id ≠ jid := by
  intro l
  induction l with
  | nil => intro _ k hk; simp at hk
  | cons j t ih =>
      intro hnodup k hk
      have hnd : j.id ∉ t.map QJob.id ∧ (t.map QJob.id).Nodup :=
        List.nodup_cons.mp hnodup
      by_cases hj : j.id = jid
      · rw [List.eraseP_cons_of_pos (by simpa using hj)] at hk
        intro hkid
        apply hnd.1
        have hkmem : k.id ∈ t.map QJob.id := List.mem_map_of_mem QJob.id hk
        rwa [hkid, ← hj] at hkmem
      · rw [List.eraseP_cons_of_neg (by simpa using hj)] at hk
        rcases List.mem_cons.mp hk with rfl | hk2
        · exact hj
        · exact ih hnd.2 k hk2

/-- C9: `remove_job` returns True and deletes the record exactly when the job
exists and its status is terminal (completed/failed/cancelled); a missing job
or a `pending`/`processing` job yields False with the table unchanged.  With
distinct ids, a successful removal leaves no record with that id. -/
theorem remove_job_spec (db : List QJob) (jid : String) :
    (db.find? (fun k => k.id = jid) = none → remove_job db jid = (false, db)) ∧
    (∀ j, db.find? (fun k => k.id = jid) = some j →
      ((j.status = "completed" ∨ j.status = "failed" ∨ j.status = "cancelled") →
        remove_job db jid = (true, db.eraseP (fun k => k.id = jid))) ∧
      (¬ (j.status = "completed" ∨ j.status = "failed" ∨ j.status = "cancelled") →
        remove_job db jid = (false, db))) ∧
    ((db.map QJob.id).Nodup → (remove_job db jid).1 = true →
      ∀ k ∈ (remove_job db jid).2, k.id ≠ jid) := by
  refine ⟨?_, ?_, ?_⟩
  · intro h
    simp only [remove_job, h]
  · intro j hj
    constructor
    · intro hterm
      simp only [remove_job, hj, if_pos hterm]
    · intro hterm
      simp only [remove_job, hj, if_neg hterm]
  · intro hnodup htrue k hk
    cases hfind : db.find? (fun q => q.id = jid) with
    | none =>
        simp only [remove_job, hfind] at htrue
        exact absurd htrue (by simp)
    | some j =>
        by_cases hterm : j.status = "completed" ∨ j.status = "failed" ∨
            j.status = "cancelled"
        · simp only [remove_job, hfind, if_pos hterm] at hk
          exact eraseP_id_not_mem jid db hnodup k hk
        · simp only [remove_job, hfind, if_neg hterm] at htrue
          exact absurd htrue (by simp)

/-- Closed instance of `remove_job_spec`: removing completed job A succeeds
and erases its record. -/
theorem remove_job_spec_witness :
    remove_job [⟨"A", 1, "completed"⟩, ⟨"B", 2, "pending"⟩] ("A")
      = (true, List.eraseP (fun k => k.id = "A")
          [(⟨"A", 1, "completed"⟩ : QJob), ⟨"B", 2, "pending"⟩]) :=
  ((remove_job_spec [⟨"A", 1, "completed"⟩, ⟨"B", 2, "pending"⟩] "A").2.1
    ⟨"A", 1, "completed"⟩ (by decide)).1 (by decide)

/-! ## Capabilities JSON round-trip (C10)

`cli_main`'s `detect` subcommand saves the capabilities dict with
`json.dump(caps, f, indent=2)` (effeffmpeg.py lines 1350-1354) and
`transcode` reloads it with `json.load(f)` (lines 1183-1196).  The document
text and its parsing are modelled at the character level: `renderCapsDoc`
prints the dict exactly as `json.dump(..., indent=2)` lays it out (keys in
the insertion order of `detect_capabilities`: hwaccel, device, encoders,
fallback_encoders; `"` and `\` escaped in strings), and `parseCapsDoc`
models `json.load` on documents of this shape (whitespace-insensitive,
escape-decoding).  Strings are restricted to printable ASCII — every string a
capabilities snapshot can hold (device paths, codec and encoder names) is —
since `json.dump` would otherwise emit `\uXXXX` escapes this model leaves
out. -/

def dquoteC : Char := Char.ofNat 34

def backslashC : Char := Char.ofNat 92

def lbraceC : Char := Char.ofNat 123

def rbraceC : Char := Char.ofNat 125

def nlC : Char := Char.ofNat 10

/-- Printable ASCII. -/
def plainChar (c : Char) : Bool := 32 ≤ c.toNat ∧ c.toNat ≤ 126

def plainStr (s : String) : Bool := s.data.all plainChar

def plainPairs (ps : List (String × String)) : Bool :=
  ps.all (fun p => plainStr p.1 && plainStr p.2)

def capsPlain (caps : Capabilities) : Bool :=
  (match caps.hwaccel with
   | none => true
   | some s => plainStr s) &&
    plainStr caps.device && plainPairs caps.encoders &&
    plainPairs caps.fallbackEncoders

/-- `json.dump`'s escaping of one printable-ASCII character. -/
def escChar (c : Char) : List Char :=
  if c = dquoteC then [backslashC, dquoteC]
  else if c = backslashC then [backslashC, backslashC]
  else [c]

/-- A JSON string literal: quote, escaped payload, quote. -/
def renderJStr (s : List Char) : List Char :=
  dquoteC :: ((s.map escChar).flatten ++ [dquoteC])

/-- JSON string body parsing (after the opening quote): plain characters up
to the closing quote, decoding `\"` and `\\`.  The flag records that the
previous character was an (unconsumed) backslash. -/
def parseJStrAuxF : Bool → List Char → Option (List Char × List Char)
  | _, [] => none
  | true, e :: cs =>
      if e = dquoteC then
        (parseJStrAuxF false cs).map (fun p => (dquoteC :: p.1, p.2))
      else if e = backslashC then
        (parseJStrAuxF false cs).map (fun p => (backslashC :: p.1, p.2))
      else none
  | false, c :: cs =>
      if c = dquoteC then some ([], cs)
      else if c = backslashC then parseJStrAuxF true cs
      else (parseJStrAuxF false cs).map (fun p => (c :: p.1, p.2))

def parseJStrAux (l : List Char) : Option (List Char × List Char) :=
  parseJStrAuxF false l

/-- JSON insignificant whitespace. -/
def isJWs (c : Char) : Bool :=
  c = ' ' ∨ c = nlC ∨ c = Char.ofNat 9 ∨ c = Char.ofNat 13

def skipJWs : List Char → List Char
  | [] => []
  | c :: cs => if isJWs c then skipJWs cs else c :: cs

/-- Expect one token character, skipping whitespace before it. -/
def expectC (c : Char) (l : List Char) : Option (List Char) :=
  match skipJWs l with
  | x :: xs => if x = c then some xs else none
  | [] => none

/-- A JSON string, skipping whitespace before it. -/
def parseJStr (l : List Char) : Option (List Char × List Char) :=
  match skipJWs l with
  | x :: xs => if x = dquoteC then parseJStrAux xs else none
  | [] => none

/-- One or more `"key": "value"` entries, comma separated, up to the closing
brace.  The fuel bounds the number of entries; callers pass the input length,
which an entry can never outrun. -/
def parsePairsList : Nat → List Char → Option (List (String × String) × List Char)
  | 0, _ => none
  | fuel + 1, l =>
      match parseJStr l with
      | none => none
      | some (k, l1) =>
          match expectC ':' l1 with
          | none => none
          | some l2 =>
              match parseJStr l2 with
              | none => none
              | some (v, l3) =>
                  match skipJWs l3 with
                  | x :: xs =>
                      if x = ',' then
                        (parsePairsList fuel xs).map
                          (fun p => ((String.mk k, String.mk v) :: p.1, p.2))
                      else if x = rbraceC then
                        some ([(String.mk k, String.mk v)], xs)
                      else none
                  | [] => none

/-- A JSON object whose values are strings, as a pair list: opening brace,
then either an immediate closing brace (empty dict) or the entry list. -/
def parseStrDict (fuel : Nat) (l : List Char) :
    Option (List (String × String) × List Char) :=
  (expectC lbraceC l).bind fun l1 =>
    match expectC rbraceC l1 with
    | some xs => some ([], xs)
    | none => parsePairsList fuel l1

def indent2c : List Char := [nlC, ' ', ' ']

def indent4c : List Char := [nlC, ' ', ' ', ' ', ' ']

def renderPair (k v : List Char) : List Char :=
  renderJStr k ++ ([':', ' '] ++ renderJStr v)

def renderPairsTail : List (String × String) → List Char
  | [] => []
  | (k, v) :: ps => [','] ++ indent4c ++ renderPair k.data v.data ++ renderPairsTail ps

/-- `json.dump(d, indent=2)` of a string dict nested at depth 1. -/
def renderStrDict : List (String × String) → List Char
  | [] => [lbraceC, rbraceC]
  | (k, v) :: ps =>
      [lbraceC] ++ indent4c ++ renderPair k.data v.data ++
        renderPairsTail ps ++ indent2c ++ [rbraceC]

/-- The `hwaccel` value: `null` or a string. -/
def renderHw : Option String → List Char
  | none => ['n', 'u', 'l', 'l']
  | some s => renderJStr s.data

def parseHw (l : List Char) : Option (Option String × List Char) :=
  match skipJWs l with
  | x :: xs =>
      if x = 'n' then
        match dropLit (['u', 'l', 'l']) xs with
        | some r => some (none, r)
        | none => none
      else if x = dquoteC then
        (parseJStrAux xs).map (fun p => (some (String.mk p.1), p.2))
      else none
  | [] => none

/-- A fixed object key followed by its colon. -/
def parseKey (keyChars : List Char) (l : List Char) : Option (List Char) :=
  match parseJStr l with
  | some (k, l1) => if k = keyChars then expectC ':' l1 else none
  | none => none

/-- The capabilities document as `json.dump(caps, f, indent=2)` writes it. -/
def renderCapsDoc (caps : Capabilities) : List Char :=
  [lbraceC] ++ indent2c ++ renderJStr (("hwaccel").data) ++ [':', ' '] ++
    renderHw caps.hwaccel ++ [','] ++ indent2c ++
    renderJStr (("device").data) ++ [':', ' '] ++
    renderJStr caps.device.data ++ [','] ++ indent2c ++
    renderJStr (("encoders").data) ++ [':', ' '] ++
    renderStrDict caps.encoders ++ [','] ++ indent2c ++
    renderJStr (("fallback_encoders").data) ++ [':', ' '] ++
    renderStrDict caps.fallbackEncoders ++ [nlC, rbraceC]

/-- `json.load` of a capabilities document, read back into the structure the
repository's code consumes (the four fields in their dumped order, nothing
after the document). -/
def parseCapsDoc (l : List Char) : Option Capabilities :=
  (expectC lbraceC l).bind fun l1 =>
  (parseKey (("hwaccel").data) l1).bind fun l2 =>
  (parseHw l2).bind fun hwl3 =>
  (expectC ',' hwl3.2).bind fun l4 =>
  (parseKey (("device").data) l4).bind fun l5 =>
  (parseJStr l5).bind fun devl6 =>
  (expectC ',' devl6.2).bind fun l7 =>
  (parseKey (("encoders").data) l7).bind fun l8 =>
  (parseStrDict l8.length l8).bind fun encl9 =>
  (expectC ',' encl9.2).bind fun l10 =>
  (parseKey (("fallback_encoders").data) l10).bind fun l11 =>
  (parseStrDict l11.length l11).bind fun fbl12 =>
  (expectC rbraceC fbl12.2).bind fun l13 =>
  if skipJWs l13 = [] then
    some ⟨hwl3.1, String.mk devl6.1, encl9.1, fbl12.1⟩
  else none

theorem string_mk_data (s : String) : String.mk s.data = s := rfl

theorem parseJStrAux_render :
    ∀ (s : List Char), s.all plainChar = true → ∀ (rest : List Char),
      parseJStrAux ((s.map escChar).flatten ++ (dquoteC :: rest)) = some (s, rest) := by
  intro s
  induction s with
  | nil =>
      intro _ rest
      simp [parseJStrAux, parseJStrAuxF]
  | cons c s ih =>
      intro hall rest
      rw [List.all_cons, Bool.and_eq_true] at hall
      have ihs := ih hall.2 rest
      rw [parseJStrAux] at ihs
      by_cases hq : c = dquoteC
      · subst hq
        have h1 : (((dquoteC :: s).map escChar).flatten ++ (dquoteC :: rest))
            = backslashC :: dquoteC ::
              ((s.map escChar).flatten ++ (dquoteC :: rest)) := by
          simp [escChar]
        rw [parseJStrAux, h1]
        simp only [parseJStrAuxF, if_neg (by decide : ¬ backslashC = dquoteC),
          if_pos rfl]
        rw [ihs]
        rfl
      · by_cases hb : c = backslashC
        · subst hb
          have h1 : (((backslashC :: s).map escChar).flatten ++ (dquoteC :: rest))
              = backslashC :: backslashC ::
                ((s.map escChar).flatten ++ (dquoteC :: rest)) := by
            simp +decide [escChar]
          rw [parseJStrAux, h1]
          simp only [parseJStrAuxF, if_neg (by decide : ¬ backslashC = dquoteC),
            if_pos rfl]
          rw [ihs]
          rfl
        · have h1 : (((c :: s).map escChar).flatten ++ (dquoteC :: rest))
              = c :: ((s.map escChar).flatten ++ (dquoteC :: rest)) := by
            simp [escChar, hq, hb]
          rw [parseJStrAux, h1]
          simp only [parseJStrAuxF, if_neg hq, if_neg hb]
          rw [ihs]
          rfl

theorem skipJWs_space (l : List Char) : skipJWs (' ' :: l) = skipJWs l := by
  simp +decide [skipJWs, isJWs]

theorem skipJWs_nl (l : List Char) : skipJWs (nlC :: l) = skipJWs l := by
  simp +decide [skipJWs, isJWs]

theorem skipJWs_indent2 (l : List Char) : skipJWs (indent2c ++ l) = skipJWs l := by
  show skipJWs (nlC :: ' ' :: ' ' :: l) = skipJWs l
  rw [skipJWs_nl, skipJWs_space, skipJWs_space]

theorem skipJWs_indent4 (l : List Char) : skipJWs (indent4c ++ l) = skipJWs l := by
  show skipJWs (nlC :: ' ' :: ' ' :: ' ' :: ' ' :: l) = skipJWs l
  rw [skipJWs_nl, skipJWs_space, skipJWs_space, skipJWs_space, skipJWs_space]

theorem skipJWs_dquote (l : List Char) :
    skipJWs (dquoteC :: l) = dquoteC :: l := by
  simp +decide [skipJWs, isJWs]

theorem parseJStr_eq_of_skip (a b : List Char) (h : skipJWs a = skipJWs b) :
    parseJStr a = parseJStr b := by
  unfold parseJStr
  rw [h]

theorem expectC_eq_of_skip (c : Char) (a b : List Char)
    (h : skipJWs a = skipJWs b) : expectC c a = expectC c b := by
  unfold expectC
  rw [h]

theorem parsePairsList_eq_of_skip (fuel : Nat) (a b : List Char)
    (h : skipJWs a = skipJWs b) :
    parsePairsList fuel a = parsePairsList fuel b := by
  cases fuel with
  | zero => rfl
  | succ f =>
      unfold parsePairsList
      rw [parseJStr_eq_of_skip a b h]

theorem parseJStr_render (s : List Char) (hs : s.all plainChar = true)
    (T : List Char) :
    parseJStr (renderJStr s ++ T) = some (s, T) := by
  have h1 : renderJStr s ++ T
      = dquoteC :: ((s.map escChar).flatten ++ (dquoteC :: T)) := by
    simp [renderJStr]
  rw [h1]
  unfold parseJStr
  rw [skipJWs_dquote]
  simp only [if_pos rfl]
  exact parseJStrAux_render s hs T

theorem expectC_colon (X : List Char) : expectC ':' (':' :: X) = some X := by
  unfold expectC
  have h : skipJWs (':' :: X) = ':' :: X := by simp +decide [skipJWs, isJWs]
  rw [h]
  simp

theorem expectC_comma (X : List Char) : expectC ',' (',' :: X) = some X := by
  unfold expectC
  have h : skipJWs (',' :: X) = ',' :: X := by simp +decide [skipJWs, isJWs]
  rw [h]
  simp

theorem parsePairsList_render :
    ∀ (ps : List (String × String)) (fuel : Nat) (k v : String) (rest : List Char),
      plainStr k = true → plainStr v = true → plainPairs ps = true →
      ps.length + 1 ≤ fuel →
      parsePairsList fuel
        (renderPair k.data v.data ++
          (renderPairsTail ps ++ (indent2c ++ (rbraceC :: rest))))
        = some ((k, v) :: ps, rest) := by
  intro ps
  induction ps with
  | nil =>
      intro fuel k v rest hk hv _ hfuel
      cases fuel with
      | zero => omega
      | succ f =>
          have h1 : renderPair k.data v.data ++
              (renderPairsTail [] ++ (indent2c ++ (rbraceC :: rest)))
              = renderJStr k.data ++
                (':' :: ' ' ::
                  (renderJStr v.data ++ (indent2c ++ (rbraceC :: rest)))) := by
            simp [renderPair, renderPairsTail]
          rw [h1]
          unfold parsePairsList
          rw [parseJStr_render k.data hk]
          simp only
          rw [expectC_colon]
          simp only
          rw [parseJStr_eq_of_skip _ _ (skipJWs_space _), parseJStr_render v.data hv]
          simp only
          have h2 : skipJWs (indent2c ++ (rbraceC :: rest)) = rbraceC :: rest := by
            rw [skipJWs_indent2]
            simp +decide [skipJWs, isJWs]
          rw [h2]
          simp only [if_neg (by decide : ¬ rbraceC = ','), if_pos rfl,
            string_mk_data]
          simp
  | cons p ps ih =>
      intro fuel k v rest hk hv hps hfuel
      obtain ⟨k2, v2⟩ := p
      rw [plainPairs, List.all_cons, Bool.and_eq_true] at hps
      rw [Bool.and_eq_true] at hps
      cases fuel with
      | zero => omega
      | succ f =>
          have h1 : renderPair k.data v.data ++
              (renderPairsTail ((k2, v2) :: ps) ++ (indent2c ++ (rbraceC :: rest)))
              = renderJStr k.data ++
                (':' :: ' ' ::
                  (renderJStr v.data ++
                    (',' :: (indent4c ++
                      (renderPair k2.data v2.data ++
                        (renderPairsTail ps ++ (indent2c ++ (rbraceC :: rest)))))))) := by
            simp [renderPair, renderPairsTail]
          rw [h1]
          unfold parsePairsList
          rw [parseJStr_render k.data hk]
          simp only
          rw [expectC_colon]
          simp only
          rw [parseJStr_eq_of_skip _ _ (skipJWs_space _), parseJStr_render v.data hv]
          simp only
          have h2 : skipJWs
              (',' :: (indent4c ++
                (renderPair k2.data v2.data ++
                  (renderPairsTail ps ++ (indent2c ++ (rbraceC :: rest))))))
              = ',' :: (indent4c ++
                (renderPair k2.data v2.data ++
                  (renderPairsTail ps ++ (indent2c ++ (rbraceC :: rest))))) := by
            simp +decide [skipJWs, isJWs]
          rw [h2]
          simp only [if_pos rfl]
          rw [parsePairsList_eq_of_skip f _ _ (skipJWs_indent4 _)]
          rw [ih f k2 v2 rest hps.1.1 hps.1.2 hps.2 (by simpa using hfuel)]
          rw [string_mk_data, string_mk_data]
          rfl

theorem expectC_self (c : Char) (hc : isJWs c = false) (X : List Char) :
    expectC c (c :: X) = some X := by
  unfold expectC
  have h : skipJWs (c :: X) = c :: X := by simp [skipJWs, hc]
  rw [h]
  simp

theorem skipJWs_renderPair (k v R : List Char) :
    skipJWs (renderPair k v ++ R) = renderPair k v ++ R :=
  skipJWs_dquote ((((k.map escChar).flatten ++ [dquoteC]) ++
    ([':', ' '] ++ renderJStr v)) ++ R)

theorem parseStrDict_eq_of_skip (fuel : Nat) (a b : List Char)
    (h : skipJWs a = skipJWs b) :
    parseStrDict fuel a = parseStrDict fuel b := by
  unfold parseStrDict
  rw [expectC_eq_of_skip lbraceC a b h]

theorem parseHw_eq_of_skip (a b : List Char) (h : skipJWs a = skipJWs b) :
    parseHw a = parseHw b := by
  unfold parseHw
  rw [h]

theorem parseStrDict_render (ps : List (String × String)) (fuel : Nat)
    (rest : List Char) (hps : plainPairs ps = true)
    (hfuel : ps.length + 1 ≤ fuel) :
    parseStrDict fuel (renderStrDict ps ++ rest) = some (ps, rest) := by
  cases ps with
  | nil =>
      have h1 : renderStrDict [] ++ rest = lbraceC :: (rbraceC :: rest) := by
        simp [renderStrDict]
      rw [h1]
      unfold parseStrDict
      rw [expectC_self lbraceC (by decide) (rbraceC :: rest)]
      simp only [Option.some_bind]
      rw [expectC_self rbraceC (by decide) rest]
  | cons p ps' =>
      obtain ⟨k, v⟩ := p
      rw [plainPairs, List.all_cons, Bool.and_eq_true, Bool.and_eq_true] at hps
      have h1 : renderStrDict ((k, v) :: ps') ++ rest
          = lbraceC :: (indent4c ++ (renderPair k.data v.data ++
              (renderPairsTail ps' ++ (indent2c ++ (rbraceC :: rest))))) := by
        simp [renderStrDict]
      rw [h1]
      unfold parseStrDict
      rw [expectC_self lbraceC (by decide) _]
      simp only [Option.some_bind]
      have hsk2 : skipJWs (indent4c ++ (renderPair k.data v.data ++
          (renderPairsTail ps' ++ (indent2c ++ (rbraceC :: rest)))))
          = dquoteC :: (((k.data.map escChar).flatten ++ [dquoteC]) ++
            (([':', ' '] ++ renderJStr v.data) ++
              (renderPairsTail ps' ++ (indent2c ++ (rbraceC :: rest))))) := by
        rw [skipJWs_indent4]
        have hcons : renderPair k.data v.data ++
            (renderPairsTail ps' ++ (indent2c ++ (rbraceC :: rest)))
            = dquoteC :: (((k.data.map escChar).flatten ++ [dquoteC]) ++
              (([':', ' '] ++ renderJStr v.data) ++
                (renderPairsTail ps' ++ (indent2c ++ (rbraceC :: rest))))) := by
          simp [renderPair, renderJStr]
        rw [hcons, skipJWs_dquote]
      have hrb : expectC rbraceC (indent4c ++ (renderPair k.data v.data ++
          (renderPairsTail ps' ++ (indent2c ++ (rbraceC :: rest))))) = none := by
        unfold expectC
        simp +decide [hsk2]
      simp only [hrb]
      rw [parsePairsList_eq_of_skip fuel _ _ (skipJWs_indent4 _)]
      exact parsePairsList_render ps' fuel k v rest hps.1.1 hps.1.2 hps.2
        (by simp at hfuel; omega)

theorem parseHw_render (hw : Option String)
    (h : (match hw with | none => true | some s => plainStr s) = true)
    (T : List Char) :
    parseHw (renderHw hw ++ T) = some (hw, T) := by
  cases hw with
  | none =>
      unfold parseHw
      have hs : skipJWs (renderHw none ++ T) = 'n' :: ('u' :: 'l' :: 'l' :: T) := by
        simp +decide [renderHw, skipJWs, isJWs]
      rw [hs]
      simp only [if_pos rfl]
      have hd : dropLit (['u', 'l', 'l']) ('u' :: 'l' :: 'l' :: T) = some T := by
        simp [dropLit]
      simp only [hd]
      simp
  | some s =>
      unfold parseHw
      have hshape : renderHw (some s) ++ T
          = dquoteC :: ((s.data.map escChar).flatten ++ (dquoteC :: T)) := by
        simp [renderHw, renderJStr]
      rw [hshape, skipJWs_dquote]
      simp only [if_neg (by decide : ¬ dquoteC = 'n'), if_pos rfl]
      rw [parseJStrAux_render s.data (by simpa [plainStr] using h) T]
      simp [string_mk_data]

theorem parseKey_render (key : List Char) (hkey : key.all plainChar = true)
    (R : List Char) :
    parseKey key (indent2c ++ (renderJStr key ++ (':' :: (' ' :: R))))
      = some (' ' :: R) := by
  unfold parseKey
  rw [parseJStr_eq_of_skip _ _ (skipJWs_indent2 _), parseJStr_render key hkey]
  simp only [if_pos rfl]
  exact expectC_colon (' ' :: R)

theorem renderPairsTail_len (ps : List (String × String)) :
    ps.length ≤ (renderPairsTail ps).length := by
  induction ps with
  | nil => simp [renderPairsTail]
  | cons p ps ih =>
      obtain ⟨k, v⟩ := p
      simp only [renderPairsTail, List.length_append, List.length_cons]
      simp only [List.length_cons] at ih ⊢
      omega

theorem renderStrDict_len (ps : List (String × String)) :
    ps.length + 1 ≤ (renderStrDict ps).length := by
  cases ps with
  | nil => simp [renderStrDict]
  | cons p ps' =>
      obtain ⟨k, v⟩ := p
      have h := renderPairsTail_len ps'
      simp only [renderStrDict, List.length_append, List.length_cons]
      omega

/-- C10: the capabilities round-trip.  For every capabilities structure
whose strings are printable ASCII (every structure the detector can produce
is), saving it to storage as the JSON document `json.dump(caps, f, indent=2)`
writes and reloading that document yields a structure identical to the
original: save followed by load is the identity. -/
theorem capabilities_roundtrip (caps : Capabilities)
    (h : capsPlain caps = true) :
    parseCapsDoc (renderCapsDoc caps) = some caps := by
  obtain ⟨hw, dev, enc, fb⟩ := caps
  rw [capsPlain, Bool.and_eq_true, Bool.and_eq_true, Bool.and_eq_true] at h
  obtain ⟨⟨⟨hhw, hdev⟩, henc⟩, hfb⟩ := h
  unfold parseCapsDoc renderCapsDoc
  simp only [List.cons_append, List.nil_append, List.singleton_append,
    List.append_assoc]
  rw [expectC_self lbraceC (by decide)]
  simp only [Option.some_bind]
  rw [parseKey_render (("hwaccel").data) (by decide)]
  simp only [Option.some_bind]
  rw [parseHw_eq_of_skip _ _ (skipJWs_space _), parseHw_render hw hhw]
  simp only [Option.some_bind]
  rw [expectC_comma]
  simp only [Option.some_bind]
  rw [parseKey_render (("device").data) (by decide)]
  simp only [Option.some_bind]
  rw [parseJStr_eq_of_skip _ _ (skipJWs_space _),
    parseJStr_render dev.data (by simpa [plainStr] using hdev)]
  simp only [Option.some_bind]
  rw [expectC_comma]
  simp only [Option.some_bind]
  rw [parseKey_render (("encoders").data) (by decide)]
  simp only [Option.some_bind]
  rw [parseStrDict_eq_of_skip _ _ _ (skipJWs_space _)]
  rw [parseStrDict_render enc _ _ henc (by
    have hl := renderStrDict_len enc
    simp only [List.length_cons, List.length_append]
    omega)]
  simp only [Option.some_bind]
  rw [expectC_comma]
  simp only [Option.some_bind]
  rw [parseKey_render (("fallback_encoders").data) (by decide)]
  simp only [Option.some_bind]
  rw [parseStrDict_eq_of_skip _ _ _ (skipJWs_space _)]
  rw [parseStrDict_render fb _ _ hfb (by
    have hl := renderStrDict_len fb
    simp only [List.length_cons, List.length_append]
    omega)]
  simp only [Option.some_bind]
  have he : expectC rbraceC ([nlC, rbraceC]) = some [] := by
    unfold expectC
    simp +decide [skipJWs, isJWs]
  rw [he]
  simp only [Option.some_bind]
  have hskipnil : skipJWs ([] : List Char) = [] := rfl
  rw [if_pos hskipnil, string_mk_data]

/-- Closed instance of `capabilities_roundtrip`: the snapshot produced by a
fully successful detection round-trips through its JSON document. -/
theorem capabilities_roundtrip_witness :
    parseCapsDoc (renderCapsDoc (detect_capabilities true true true))
      = some (detect_capabilities true true true) :=
  capabilities_roundtrip (detect_capabilities true true true) (by decide)

end Squishy
